import Mathlib

/-!
Verification of the schedule-resolution engine of the on-call scheduler
(`src/app.py`): timezone canonicalization, event projection from cron and
day/time-range schedules, chronological event merging, the two active-set
activation models, timeline segmentation, and round-robin selection.

Modelling conventions:
* UTC instants and local wall-clock times are `Int` seconds; `timedelta(days=2)`
  is `2 * 86400`, `timedelta(seconds=1)` is `1`.
* Local calendar days are `Int` day indices on the local wall clock
  (day `d` spans wall-clock seconds `[d*86400, (d+1)*86400)`); the epoch day 0
  is a Monday, so `weekday(d) = d % 7` with Monday = 0 as in Python.
* The external libraries (`zoneinfo`, `croniter`, `datetime.isoformat`) are
  abstracted into an `Env` record: `validZone name` states that
  `ZoneInfo(name)` succeeds, `toLocal`/`fromLocal` are `astimezone` in the two
  directions, `cronValid expr` states that `croniter(expr, base)` construction
  succeeds, and `cronFires expr base n` is the result of the `n`-th
  `get_next(datetime)` call (in local wall-clock seconds), `.error` meaning
  that call raised.
* Python exceptions are `Except`; a `try/except` that swallows the error
  becomes a `match` on the `Except` value.
* Python dicts (`active_by_id`, the `rr` rotation table, the member map) are
  insertion-ordered association lists; assignment to an absent key appends,
  assignment to a present key replaces in place, as in CPython.
-/

/-- A member record (`{"id": ..., "name": ...}`). -/
structure Member where
  id : String
  name : String
deriving DecidableEq

/-- A schedule record as stored in `state.json`.  `cron` is present exactly on
legacy cron schedules; `start_time`/`end_time`/`days` on range schedules.
`active` models `s.get("active", True)`. -/
structure Schedule where
  id : String
  member_id : String
  timezone : String
  cron : Option String := none
  start_time : Option String := none
  end_time : Option String := none
  days : List Int := []
  active : Bool := true
deriving DecidableEq

/-- Kind tag of a projected event; `stop` models the `"end"` tag of the source
(`end` is reserved in Lean). -/
inductive EventKind where
  | start
  | stop
deriving DecidableEq

/-- A projected event `(ts_utc, kind, schedule)`; transient, never persisted. -/
structure Event where
  ts : Int
  kind : EventKind
  sched : Schedule
deriving DecidableEq

/-- Abstraction of the external libraries used by the engine (see the header
comment for the meaning of each field). -/
structure Env where
  validZone : String → Bool
  toLocal : String → Int → Int
  fromLocal : String → Int → Int
  cronValid : String → Bool
  cronFires : String → Int → Nat → Except Unit Int
  isoformat : Int → String

/-- The persisted application state: members, schedules and the round-robin
rotation table `rr` (`state.get("rr", {})`). -/
structure AppState where
  members : List Member
  schedules : List Schedule
  rr : List (String × Int) := []

/-- The JSON payload of `/api/shift`. -/
structure ShiftResult where
  id : Option String
  name : Option String
  on_shift : Bool
  round_robin : Bool
deriving DecidableEq

/-- A timeline segment `{start_utc, end_utc, schedules}`. -/
structure Segment where
  start_utc : Int
  end_utc : Int
  schedules : List Schedule
deriving DecidableEq

/-- A parsed time of day (`datetime.time(hour, minute)`). -/
structure Tod where
  hour : Int
  minute : Int
deriving DecidableEq

/-- `TZ_ALIASES`: common timezone abbreviation aliases to canonical IANA
zones, in source order. -/
def TZ_ALIASES : List (String × String) :=
  [ ("UTC", "UTC")
  , ("GMT", "Etc/GMT")
  , ("BST", "Europe/London")
  , ("CET", "Europe/Berlin")
  , ("CEST", "Europe/Berlin")
  , ("EET", "Europe/Bucharest")
  , ("EEST", "Europe/Bucharest")
  , ("WET", "Europe/Lisbon")
  , ("WEST", "Europe/Lisbon")
  , ("IST", "Asia/Kolkata")
  , ("PKT", "Asia/Karachi")
  , ("JST", "Asia/Tokyo")
  , ("KST", "Asia/Seoul")
  , ("AEST", "Australia/Sydney")
  , ("AEDT", "Australia/Sydney")
  , ("NZST", "Pacific/Auckland")
  , ("NZDT", "Pacific/Auckland")
  , ("EST", "America/New_York")
  , ("EDT", "America/New_York")
  , ("CST", "America/Chicago")
  , ("CDT", "America/Chicago")
  , ("MST", "America/Denver")
  , ("MDT", "America/Denver")
  , ("PST", "America/Los_Angeles")
  , ("PDT", "America/Los_Angeles") ]

/-- Lookup in an insertion-ordered dict with unique keys (`d[k]` / `k in d`). -/
def assocLookup (l : List (String × String)) (k : String) : Option String :=
  (l.find? (fun p => p.1 == k)).map (fun p => p.2)

/-- Python `str.strip()` (ASCII whitespace), implemented structurally on the
character list. -/
def pyStrip (s : String) : String :=
  ⟨((s.data.dropWhile Char.isWhitespace).reverse.dropWhile Char.isWhitespace).reverse⟩

/-- Python `str.upper()` (ASCII letters), implemented structurally. -/
def pyUpper (s : String) : String :=
  ⟨s.data.map Char.toUpper⟩

/-- Python `str.split(sep)` for a one-character separator: splits at every
occurrence, keeping empty pieces (`"a:b:".split(":") == ["a","b",""]`,
`"".split(":") == [""]`). -/
def splitChar (sep : Char) : List Char → List (List Char)
  | [] => [[]]
  | c :: cs =>
    let r := splitChar sep cs
    if c = sep then [] :: r
    else
      match r with
      | h :: t => (c :: h) :: t
      | [] => [[c]]

/-- `canonicalize_timezone_name`, parameterized by the installed zone database
(`validZone name` iff `ZoneInfo(name)` succeeds).  A raised `ValueError` (or a
`ZoneInfo` failure on the alias target, which the function does not catch) is
an `Except.error`. -/
def canonicalize_timezone_name (validZone : String → Bool) (tz_name : String) :
    Except String String :=
  let name := pyStrip tz_name
  if name = "" then .error "Timezone required"
  else if validZone name then .ok name
  else
    let aliasName := pyUpper name
    match assocLookup TZ_ALIASES aliasName with
    | some canonical =>
        if validZone canonical then .ok canonical
        else .error "ZoneInfo failed on alias target"
    | none => .error "Unknown timezone"

/-- Python `int(str)` on the strings reaching `_parse_time_of_day`: optional
surrounding whitespace, optional single sign, then decimal digits.  (The
underscore digit grouping of Python 3 literals is not modelled; no stored
schedule uses it.) -/
def pyInt (s : String) : Except String Int :=
  let t := pyStrip s
  match t.data with
  | [] => .error "invalid literal for int"
  | c :: cs =>
    let ds := if c = '-' ∨ c = '+' then cs else c :: cs
    let sign : Int := if c = '-' then -1 else 1
    if ds = [] then .error "invalid literal for int"
    else if ds.all Char.isDigit then
      .ok (sign * (ds.foldl (fun a d => a * 10 + (Int.ofNat (d.toNat - '0'.toNat))) 0))
    else .error "invalid literal for int"

/-- `_parse_time_of_day`: strip, require nonempty, split on a colon into
exactly two parts, parse both as ints, range-check. -/
def parse_time_of_day (hhmm : String) : Except String Tod :=
  let t := pyStrip hhmm
  if t = "" then .error "Time value required"
  else
    match splitChar ':' t.data with
    | [p0, p1] =>
      match pyInt ⟨p0⟩, pyInt ⟨p1⟩ with
      | .ok h, .ok m =>
          if 0 ≤ h ∧ h ≤ 23 ∧ 0 ≤ m ∧ m ≤ 59 then .ok ⟨h, m⟩
          else .error "Time must be HH:MM (00:00-23:59)"
      | _, _ => .error "invalid literal for int"
    | _ => .error "Time must be HH:MM"

/-- `_is_range_schedule`: `start_time` present and not `None`. -/
def is_range_schedule (s : Schedule) : Bool :=
  s.start_time.isSome

/-- Truthiness of `s.get("cron")`: present and nonempty. -/
def hasCron (s : Schedule) : Bool :=
  match s.cron with
  | some c => c ≠ ""
  | none => false

/-- The local `is_cron_schedule` helper of `_determine_all_active_at` and
`compute_timeline_segments`. -/
def is_cron_schedule (s : Schedule) : Bool :=
  hasCron s && !is_range_schedule s

/-- Insert `e` into `l` before the first element not strictly below it.
Folding this over a list is a stable sort (equal-key elements keep their
input order), extensionally the sort used by Python `list.sort(key=...)`. -/
def insertByLt (lt : α → α → Bool) (e : α) : List α → List α
  | [] => [e]
  | x :: xs => if lt x e then x :: insertByLt lt e xs else e :: x :: xs

/-- Stable sort by the strict comparison `lt`. -/
def sortByLt (lt : α → α → Bool) : List α → List α
  | [] => []
  | e :: es => insertByLt lt e (sortByLt lt es)

/-- Strict event comparison used by `events.sort(key=lambda e: e[0])`. -/
def evLt (a b : Event) : Bool := a.ts < b.ts

/-- Python string `<`: lexicographic comparison by code point, implemented
structurally on the character lists. -/
def charsLt : List Char → List Char → Bool
  | [], [] => false
  | [], _ :: _ => true
  | _ :: _, [] => false
  | a :: as, b :: bs =>
    if a.toNat < b.toNat then true
    else if b.toNat < a.toNat then false
    else charsLt as bs

/-- Python `a < b` on strings. -/
def pyStrLt (a b : String) : Bool := charsLt a.data b.data

/-- The sort key `(member name or "", schedule id)` used for active lists and
segment contents (`_determine_all_active_at`, `compute_timeline_segments`). -/
def memberKey (members : List Member) (s : Schedule) : String × String :=
  (((members.filter (fun m => m.id == s.member_id)).getLast?).elim "" Member.name, s.id)

/-- Strict lexicographic comparison of the Python tuple sort key. -/
def memberKeyLt (members : List Member) (a b : Schedule) : Bool :=
  let ka := memberKey members a
  let kb := memberKey members b
  pyStrLt ka.1 kb.1 || (ka.1 == kb.1 && pyStrLt ka.2 kb.2)

/-- Stable sort of schedules by `(member name, id)`. -/
def sortSchedulesByMember (members : List Member) (l : List Schedule) : List Schedule :=
  sortByLt (memberKeyLt members) l

/-- `get_member_map(state).get(mid)`: in a dict comprehension a duplicated key
keeps the last value, so lookup returns the last matching member. -/
def lookupMember (members : List Member) (mid : String) : Option Member :=
  (members.filter (fun m => m.id == mid)).getLast?

/-- The cron iteration loop of `_generate_events_for_schedule` (`for _ in
range(1000)`), with `i` the number of `get_next` calls already made. -/
def cronLoop (env : Env) (expr tzn : String) (base windowEnd : Int) (s : Schedule) :
    Nat → Nat → List Event
  | 0, _ => []
  | fuel + 1, i =>
    match env.cronFires expr base i with
    | .error _ => []
    | .ok nextLocal =>
      let nextUtc := env.fromLocal tzn nextLocal
      if windowEnd ≤ nextUtc then []
      else ⟨nextUtc, .start, s⟩ :: cronLoop env expr tzn base windowEnd s fuel (i + 1)

/-- Python tuple comparison `(a.hour, a.minute) <= (b.hour, b.minute)`. -/
def todLe (a b : Tod) : Bool :=
  a.hour < b.hour || (a.hour == b.hour && a.minute ≤ b.minute)

/-- Monday-0 weekday of a local calendar day index (`cur_date.weekday()`). -/
def weekdayOf (d : Int) : Int := d % 7

/-- The local calendar day carrying the end instant: the start's own day
unless `end_t <= start_t` (non-strict), which rolls to the next day. -/
def rangeEndDay (startT et : Tod) (d : Int) : Int :=
  if todLe et startT then d + 1 else d

/-- The UTC instant of the end event computed from a start on local day `d`. -/
def rangeEndUtc (env : Env) (tzn : String) (startT et : Tod) (d : Int) : Int :=
  env.fromLocal tzn (rangeEndDay startT et d * 86400 + et.hour * 3600 + et.minute * 60)

/-- The loop body of the range branch of `_generate_events_for_schedule` for
one local calendar day `d`: a `start` event at `start_t` if its UTC instant is
before `window_end`, and, when an end time is given, an `end` event on the
same day (or the next day when `end_t <= start_t`) if its UTC instant is
strictly inside `(window_start, window_end + 1 day)`. -/
def rangeDayEvents (env : Env) (tzn : String) (startT : Tod) (endT : Option Tod)
    (days : List Int) (ws we : Int) (s : Schedule) (d : Int) : List Event :=
  if days.contains (weekdayOf d) then
    let startUtc := env.fromLocal tzn (d * 86400 + startT.hour * 3600 + startT.minute * 60)
    let starts := if startUtc < we then [⟨startUtc, EventKind.start, s⟩] else []
    let ends :=
      match endT with
      | none => []
      | some et =>
        let endUtc := rangeEndUtc env tzn startT et d
        if ws < endUtc ∧ endUtc < we + 86400 then [⟨endUtc, EventKind.stop, s⟩] else []
    starts ++ ends
  else []

/-- The local calendar days visited by the `while cur_date < local_end` loop:
day indices from `d`, as long as the UTC instant of local midnight of the day
is before the instant `localEndUtc` of `local_end` (aware datetimes compare as
instants).  The Python loop is unbounded; it terminates for every real zone
conversion, and the fuel passed below dominates its iteration count for any
conversion that moves wall clocks by less than a day. -/
def rangeDaysList (env : Env) (tzn : String) (localEndUtc : Int) :
    Int → Nat → List Int
  | _, 0 => []
  | d, fuel + 1 =>
    if env.fromLocal tzn (d * 86400) < localEndUtc then
      d :: rangeDaysList env tzn localEndUtc (d + 1) fuel
    else []

/-- The parsed optional end time: `end_t` stays `None` when the stored value
is falsy or fails to parse (`except Exception: end_t = None`). -/
def endTodOf (s : Schedule) : Option Tod :=
  match s.end_time with
  | some estr => if estr = "" then none else (parse_time_of_day estr).toOption
  | none => none

/-- `_generate_events_for_schedule`.  The result is `.error` exactly when the
function raises (only possible at `croniter(s["cron"], base_local)`, which is
outside every `try`); the internal `try/except` blocks that return the events
collected so far become `match`es producing `.ok`. -/
def generate_events_for_schedule (env : Env) (s : Schedule) (ws we : Int) :
    Except String (List Event) :=
  if !s.active then .ok []
  else if hasCron s then
    match canonicalize_timezone_name env.validZone s.timezone with
    | .error _ => .ok []
    | .ok tzn =>
      let expr := s.cron.getD ""
      if !env.cronValid expr then .error "invalid cron expression"
      else
        let baseLocal := env.toLocal tzn (ws - 2 * 86400)
        .ok (cronLoop env expr tzn baseLocal we s 1000 0)
  else if is_range_schedule s then
    match canonicalize_timezone_name env.validZone s.timezone with
    | .error _ => .ok []
    | .ok tzn =>
      match parse_time_of_day (s.start_time.getD "") with
      | .error _ => .ok []
      | .ok startT =>
        let endT := endTodOf s
        let localStartDay := (env.toLocal tzn (ws - 2 * 86400)).fdiv 86400
        let localEndWall := env.toLocal tzn (we + 86400)
        let fuel := (localEndWall.fdiv 86400 + 2 - localStartDay).toNat
        .ok ((rangeDaysList env tzn (we + 86400) localStartDay fuel).flatMap
              (rangeDayEvents env tzn startT endT s.days ws we s))
  else .ok []

/-- The per-schedule `try/except` of `_generate_all_events`: a raising
projector contributes no events. -/
def events_or_empty (env : Env) (s : Schedule) (ws we : Int) : List Event :=
  match generate_events_for_schedule env s ws we with
  | .ok evs => evs
  | .error _ => []

/-- `_generate_all_events`: concatenate every schedule's events (skipping
raising projectors) and stably sort by instant. -/
def generate_all_events (env : Env) (state : AppState) (ws we : Int) : List Event :=
  sortByLt evLt (state.schedules.flatMap (fun s => events_or_empty env s ws we))

/-- An insertion-ordered dict from schedule id to schedule. -/
abbrev SchedDict := List (String × Schedule)

/-- `sid in active_by_id`. -/
def dictContains (d : SchedDict) (k : String) : Bool :=
  d.any (fun p => p.1 == k)

/-- `del active_by_id[sid]`. -/
def dictDel (d : SchedDict) (k : String) : SchedDict :=
  d.filter (fun p => p.1 != k)

/-- `active_by_id[sid] = sched`: replace in place when present, else append. -/
def dictSet (d : SchedDict) (k : String) (v : Schedule) : SchedDict :=
  if dictContains d k then d.map (fun p => if p.1 == k then (k, v) else p)
  else d ++ [(k, v)]

/-- `list(active_by_id.values())`. -/
def dictValues (d : SchedDict) : List Schedule :=
  d.map (fun p => p.2)

/-- The event loop of `_determine_active_at` / `_determine_all_active_at`:
replay events in order, stopping (`break`) at the first event strictly after
`at_utc`. -/
def replayUntil (step : σ → Event → σ) (at_utc : Int) : List Event → σ → σ
  | [], st => st
  | e :: rest, st =>
    if at_utc < e.ts then st
    else replayUntil step at_utc rest (step st e)

/-- One event of the overlap-aware simulation (`_determine_all_active_at`):
a cron start replaces the whole set, a range start inserts only if absent, an
end removes only if present; `last_change` is updated on every change. -/
def applyAllStep (st : SchedDict × Option Int) (e : Event) : SchedDict × Option Int :=
  let sid := e.sched.id
  match e.kind with
  | .start =>
    if is_cron_schedule e.sched then ([(sid, e.sched)], some e.ts)
    else if dictContains st.1 sid then st
    else (st.1 ++ [(sid, e.sched)], some e.ts)
  | .stop =>
    if dictContains st.1 sid then (dictDel st.1 sid, some e.ts)
    else st

/-- `_determine_all_active_at`: replay the merged events of the window
`[at - 2 days, at + 1 s)` up to `at`, then sort the surviving schedules by
`(member name, id)`. -/
def determine_all_active_at (env : Env) (state : AppState) (at_utc : Int) :
    List Schedule × Option Int :=
  let events := generate_all_events env state (at_utc - 2 * 86400) (at_utc + 1)
  let st := replayUntil applyAllStep at_utc events ([], none)
  (sortSchedulesByMember state.members (dictValues st.1), st.2)

/-- One event of the single-owner simulation (`_determine_active_at`): every
start replaces the current schedule; an end clears it only when the ids
match. -/
def applySingleStep (st : Option Schedule × Option Int) (e : Event) :
    Option Schedule × Option Int :=
  match e.kind with
  | .start => (some e.sched, some e.ts)
  | .stop =>
    match st.1 with
    | some a => if a.id == e.sched.id then (none, none) else st
    | none => st

/-- `_determine_active_at`. -/
def determine_active_at (env : Env) (state : AppState) (at_utc : Int) :
    Option Schedule × Option Int :=
  let events := generate_all_events env state (at_utc - 2 * 86400) (at_utc + 1)
  replayUntil applySingleStep at_utc events (none, none)

/-- The scan of `_find_next_start_after`: first `start` event strictly after
`after_utc`. -/
def findNextLoop (after_utc : Int) : List Event → Option Schedule × Option Int
  | [] => (none, none)
  | e :: rest =>
    if e.kind == EventKind.start ∧ after_utc < e.ts then (some e.sched, some e.ts)
    else findNextLoop after_utc rest

/-- `_find_next_start_after`: scan a 7-day horizon. -/
def find_next_start_after (env : Env) (state : AppState) (after_utc : Int) :
    Option Schedule × Option Int :=
  findNextLoop after_utc (generate_all_events env state after_utc (after_utc + 7 * 86400))

/-- `compute_current_shift`. -/
def compute_current_shift (env : Env) (state : AppState) (now : Int) :
    Option Schedule × Option Int × Option Schedule × Option Int :=
  if (state.schedules.filter (fun s => s.active)).isEmpty then (none, none, none, none)
  else
    let c := determine_active_at env state now
    let n := find_next_start_after env state now
    (c.1, c.2, n.1, n.2)

/-- One event of the timeline walk (no `last_change`; the non-cron start is an
unconditional dict assignment here). -/
def applySegStep (d : SchedDict) (e : Event) : SchedDict :=
  let sid := e.sched.id
  match e.kind with
  | .start =>
    if is_cron_schedule e.sched then [(sid, e.sched)]
    else dictSet d sid e.sched
  | .stop =>
    if dictContains d sid then dictDel d sid else d

/-- The first loop of `compute_timeline_segments`: establish the active set at
`window_start` (`break` at the first event at or after it). -/
def preLoop (ws : Int) : List Event → SchedDict → SchedDict
  | [], d => d
  | e :: rest, d =>
    if ws ≤ e.ts then d
    else preLoop ws rest (applySegStep d e)

/-- The second loop of `compute_timeline_segments` together with the final
closing segment: walk the events, skipping those before `window_start`,
stopping at the first at or after `window_end`; each boundary strictly beyond
`prev` closes a segment, and the window is closed at `window_end`. -/
def segLoop (ws we : Int) : List Event → SchedDict → Int → List Segment
  | [], active, prev =>
    if prev < we then [⟨prev, we, dictValues active⟩] else []
  | e :: rest, active, prev =>
    if e.ts < ws then segLoop ws we rest active prev
    else if we ≤ e.ts then
      (if prev < we then [⟨prev, we, dictValues active⟩] else [])
    else
      (if prev < e.ts then [⟨prev, e.ts, dictValues active⟩] else []) ++
        segLoop ws we rest (applySegStep active e) e.ts

/-- `compute_timeline_segments`. -/
def compute_timeline_segments (env : Env) (state : AppState) (ws we : Int) :
    List Segment :=
  if (state.schedules.filter (fun s => s.active)).isEmpty then []
  else
    let events := generate_all_events env state (ws - 2 * 86400) we
    let d0 := preLoop ws events []
    let segs := segLoop ws we events d0 ws
    segs.map (fun seg =>
      { seg with schedules := sortSchedulesByMember state.members seg.schedules })

/-- `rr_map.get(group_key, -1)` (keys are unique, so first match suffices). -/
def rrLookup (rr : List (String × Int)) (k : String) : Option Int :=
  (rr.find? (fun p => p.1 == k)).map (fun p => p.2)

/-- `rr_map[group_key] = next_index`. -/
def rrSet (rr : List (String × Int)) (k : String) (v : Int) : List (String × Int) :=
  if rr.any (fun p => p.1 == k) then rr.map (fun p => if p.1 == k then (k, v) else p)
  else rr ++ [(k, v)]

/-- The rotation group key of `api_shift`:
`f"{group_time}|{group_key_part}"`, where `group_time` is the ISO rendering of
`active_set_started` (or `""`) and `group_key_part` joins the active schedule
ids, in the stable `(member name, id)` order, with `"|"`. -/
def groupKeyOf (env : Env) (actives : List Schedule) (started : Option Int) : String :=
  (match started with | some t => env.isoformat t | none => "") ++ "|" ++
    String.intercalate "|" (actives.map Schedule.id)

/-- The branch of `api_shift` after the active set has been determined.  The
returned `AppState` models the `save_state` call (only the `n ≥ 2` branch
mutates and persists the rotation table). -/
def apiShiftCore (env : Env) (state : AppState) (r : List Schedule × Option Int) :
    ShiftResult × AppState :=
  match r with
  | ([], _) => (⟨none, none, false, false⟩, state)
  | ([only], _) =>
    let member := lookupMember state.members only.member_id
    (⟨member.map Member.id, member.map Member.name, true, false⟩, state)
  | (actives, started) =>
    let groupKey := groupKeyOf env actives started
    let prevIndex := (rrLookup state.rr groupKey).getD (-1)
    let nextIndex := (prevIndex + 1) % (actives.length : Int)
    let rr2 := rrSet state.rr groupKey nextIndex
    let selected := actives.getD nextIndex.toNat ⟨"", "", "", none, none, none, [], true⟩
    let member := lookupMember state.members selected.member_id
    (⟨member.map Member.id, member.map Member.name, true, true⟩, { state with rr := rr2 })

/-- `api_shift` (`/api/shift`): determine the active set at `now`, then pick. -/
def api_shift (env : Env) (state : AppState) (now : Int) : ShiftResult × AppState :=
  apiShiftCore env state (determine_all_active_at env state now)

/-- Concrete model of the installed IANA zone database (external to the
repository), restricted to the names relevant here: every canonical target of
`TZ_ALIASES` plus the legacy fixed-offset keys (`EST`, `MST`, `HST`, `CET`,
`EET`, `WET`, `MET`) that every standard tzdata distribution ships, under
which `ZoneInfo("EST")` succeeds while `ZoneInfo("EDT")` fails. -/
def ianaSample : String → Bool := fun n =>
  [ "UTC", "Etc/GMT", "Europe/London", "Europe/Berlin", "Europe/Bucharest"
  , "Europe/Lisbon", "Asia/Kolkata", "Asia/Karachi", "Asia/Tokyo", "Asia/Seoul"
  , "Australia/Sydney", "Pacific/Auckland", "America/New_York", "America/Chicago"
  , "America/Denver", "America/Los_Angeles"
  , "GMT", "EST", "MST", "HST", "CET", "EET", "WET", "MET" ].contains n

/-- A concrete environment for witnesses: the only zone is `UTC` with local
time equal to UTC, cron expressions other than `"bad"` are valid and fire
daily starting one day after their base. -/
def testEnv : Env where
  validZone := fun n => n == "UTC"
  toLocal := fun _ u => u
  fromLocal := fun _ l => l
  cronValid := fun e => e != "bad"
  cronFires := fun _ base n => .ok (base + 86400 * ((n : Int) + 1))
  isoformat := fun t => toString t

/-- Witness fixture: member Alice. -/
def mAlice : Member := ⟨"m1", "Alice"⟩

/-- Witness fixture: member Bob. -/
def mBob : Member := ⟨"m2", "Bob"⟩

/-- Witness fixture: Alice's every-day 09:00-17:00 UTC range schedule. -/
def schedA : Schedule :=
  { id := "a", member_id := "m1", timezone := "UTC", start_time := some "09:00"
  , end_time := some "17:00", days := [0, 1, 2, 3, 4, 5, 6] }

/-- Witness fixture: Bob's every-day 08:00-18:00 UTC range schedule. -/
def schedB : Schedule :=
  { id := "b", member_id := "m2", timezone := "UTC", start_time := some "08:00"
  , end_time := some "18:00", days := [0, 1, 2, 3, 4, 5, 6] }

/-- Witness fixture: a legacy cron schedule of Alice's. -/
def schedCron : Schedule :=
  { id := "c", member_id := "m1", timezone := "UTC", cron := some "daily" }

/-- Witness fixture: a cron schedule whose expression makes `croniter` raise. -/
def schedBadCron : Schedule :=
  { id := "x", member_id := "m2", timezone := "UTC", cron := some "bad" }

/-- Witness fixture: a range schedule with an unparseable stored end time. -/
def schedBadEnd : Schedule :=
  { id := "e", member_id := "m1", timezone := "UTC", start_time := some "09:00"
  , end_time := some "oops", days := [0, 1, 2, 3, 4, 5, 6] }

/-- Witness fixture: state with no schedules. -/
def emptyState : AppState := ⟨[mAlice], [], []⟩

/-- Witness fixture: state with the two overlapping range schedules. -/
def stateAB : AppState := ⟨[mAlice, mBob], [schedA, schedB], []⟩

/-- Witness fixture: state with one good range schedule and one raising cron
schedule. -/
def stateWithBad : AppState := ⟨[mAlice, mBob], [schedA, schedBadCron], []⟩

/-- Decidable statement that a segment list exactly tiles `[ws, we)`: nonempty,
first start is `ws`, consecutive segments abut, last end is `we`, and every
segment has strictly positive duration. -/
def tilesb : Int → Int → List Segment → Bool
  | _, _, [] => false
  | ws, we, [s] =>
    s.start_utc == ws && decide (s.start_utc < s.end_utc) && s.end_utc == we
  | ws, we, s :: s2 :: rest =>
    s.start_utc == ws && decide (s.start_utc < s.end_utc) &&
      tilesb s.end_utc we (s2 :: rest)

/-- Events ordered by instant: the sortedness relation of a merged stream. -/
def evLe (a b : Event) : Prop := a.ts ≤ b.ts

theorem insertByLt_perm {α : Type} (lt : α → α → Bool) (e : α) :
    ∀ l : List α, (insertByLt lt e l).Perm (e :: l) := by
  intro l
  induction l with
  | nil => exact List.Perm.refl _
  | cons x xs ih =>
    by_cases h : lt x e = true
    · simpa [insertByLt, h] using ((ih.cons x).trans (List.Perm.swap e x xs))
    · simp [insertByLt, h]

theorem insertByLt_pairwise_ts (e : Event) (l : List Event)
    (hl : l.Pairwise evLe) : (insertByLt evLt e l).Pairwise evLe := by
  induction l with
  | nil => simp [insertByLt, evLe]
  | cons x xs ih =>
    rcases List.pairwise_cons.mp hl with ⟨hx, hxs⟩
    by_cases h : evLt x e = true
    · have hxe : x.ts < e.ts := by simpa [evLt] using h
      simp only [insertByLt, h, if_true]
      refine List.pairwise_cons.mpr ⟨?_, ih hxs⟩
      intro y hy
      rcases List.mem_cons.mp ((insertByLt_perm evLt e xs).mem_iff.mp hy) with h1 | h1
      · subst h1; exact le_of_lt hxe
      · exact hx y h1
    · have hex : e.ts ≤ x.ts := by
        have : ¬ x.ts < e.ts := by simpa [evLt] using h
        omega
      simp only [insertByLt, h, if_false]
      refine List.pairwise_cons.mpr ⟨?_, hl⟩
      intro y hy
      rcases List.mem_cons.mp hy with h1 | h1
      · subst h1; exact hex
      · exact le_trans hex (hx y h1)

theorem sortByLt_pairwise_ts (l : List Event) : (sortByLt evLt l).Pairwise evLe := by
  induction l with
  | nil => simp [sortByLt]
  | cons e es ih => exact insertByLt_pairwise_ts e _ ih

theorem insertByLt_filter_ts (e : Event) (t : Int) :
    ∀ l : List Event,
      (insertByLt evLt e l).filter (fun x => x.ts == t) =
        if e.ts == t then e :: l.filter (fun x => x.ts == t)
        else l.filter (fun x => x.ts == t) := by
  intro l
  induction l with
  | nil => by_cases h : e.ts == t <;> simp [insertByLt, h]
  | cons x xs ih =>
    by_cases hxe : evLt x e = true
    · have hlt : x.ts < e.ts := by simpa [evLt] using hxe
      by_cases het : (e.ts == t) = true
      · have hxt : (x.ts == t) = false := by
          have h1 : e.ts = t := by simpa using het
          simp only [beq_eq_false_iff_ne, ne_eq]
          omega
        simp [insertByLt, hxe, List.filter_cons, hxt, ih, het]
      · simp [insertByLt, hxe, List.filter_cons, ih, het]
    · simp only [insertByLt, hxe, if_false, List.filter_cons]
      by_cases het : (e.ts == t) = true <;> simp [het, List.filter_cons]

theorem sortByLt_filter_ts (t : Int) :
    ∀ l : List Event,
      (sortByLt evLt l).filter (fun x => x.ts == t) = l.filter (fun x => x.ts == t) := by
  intro l
  induction l with
  | nil => rfl
  | cons e es ih =>
    rw [sortByLt, insertByLt_filter_ts, List.filter_cons]
    by_cases h : (e.ts == t) = true <;> simp [h, ih]

theorem replayUntil_eq_foldl {σ : Type} (step : σ → Event → σ) (at_utc : Int) :
    ∀ (l : List Event) (st : σ), l.Pairwise evLe →
      replayUntil step at_utc l st =
        (l.filter (fun e => decide (e.ts ≤ at_utc))).foldl step st := by
  intro l
  induction l with
  | nil => intro st _; rfl
  | cons e rest ih =>
    intro st hl
    rcases List.pairwise_cons.mp hl with ⟨he, hrest⟩
    by_cases h : at_utc < e.ts
    · have h1 : (decide (e.ts ≤ at_utc)) = false := by simp; omega
      have h2 : rest.filter (fun e => decide (e.ts ≤ at_utc)) = [] := by
        refine List.filter_eq_nil_iff.mpr ?_
        intro x hx
        have hx2 := he x hx
        simp only [evLe] at hx2
        simp only [decide_eq_true_eq]
        omega
      simp [replayUntil, h, List.filter_cons, h1, h2]
    · have h1 : (decide (e.ts ≤ at_utc)) = true := by simp; omega
      simp only [replayUntil, if_neg h, List.filter_cons, h1, if_true, List.foldl_cons]
      exact ih (step st e) hrest

theorem generate_all_events_pairwise (env : Env) (state : AppState) (ws we : Int) :
    (generate_all_events env state ws we).Pairwise evLe :=
  sortByLt_pairwise_ts _

theorem tilesb_map_schedules (f : List Schedule → List Schedule) :
    ∀ (a b : Int) (segs : List Segment),
      tilesb a b (segs.map (fun seg => { seg with schedules := f seg.schedules })) =
        tilesb a b segs := by
  intro a b segs
  induction segs generalizing a with
  | nil => rfl
  | cons s rest ih =>
    cases rest with
    | nil => simp [tilesb]
    | cons s2 t =>
      have hih := ih s.end_utc
      simp only [List.map_cons] at hih
      simp [tilesb, hih]

theorem segLoop_tiles (ws we : Int) :
    ∀ (l : List Event) (active : SchedDict) (prev : Int),
      prev < we → l.Pairwise evLe → (∀ e ∈ l, ws ≤ e.ts → prev ≤ e.ts) →
      tilesb prev we (segLoop ws we l active prev) = true := by
  intro l
  induction l with
  | nil =>
    intro active prev hprev _ _
    simp [segLoop, hprev, tilesb]
  | cons e rest ih =>
    intro active prev hprev hpw h3
    rcases List.pairwise_cons.mp hpw with ⟨he, hrest⟩
    by_cases h1 : e.ts < ws
    · simp only [segLoop, h1, if_true]
      exact ih active prev hprev hrest (fun x hx h => h3 x (List.mem_cons_of_mem e hx) h)
    · by_cases h2 : we ≤ e.ts
      · simp [segLoop, h1, h2, hprev, tilesb]
      · have hwse : ws ≤ e.ts := le_of_not_lt h1
        have hetswe : e.ts < we := lt_of_not_ge h2
        have hpe : prev ≤ e.ts := h3 e (List.mem_cons_self e rest) hwse
        have hrec := ih (applySegStep active e) e.ts hetswe hrest
          (fun x hx _ => he x hx)
        by_cases h4 : prev < e.ts
        · simp only [segLoop, h1, if_false, h2, h4, if_true]
          cases hl : segLoop ws we rest (applySegStep active e) e.ts with
          | nil => rw [hl] at hrec; simp [tilesb] at hrec
          | cons y t =>
            rw [hl] at hrec
            simp [tilesb, h4, hrec]
        · have hpeq : prev = e.ts := le_antisymm hpe (not_lt.mp h4)
          simp only [segLoop, h1, if_false, h2, h4, List.nil_append]
          rw [hpeq]
          exact hrec

theorem cronLoop_bounded (env : Env) (expr tzn : String) (base we : Int) (s : Schedule) :
    ∀ (fuel i : Nat),
      (cronLoop env expr tzn base we s fuel i).length ≤ fuel ∧
      ∀ e ∈ cronLoop env expr tzn base we s fuel i,
        e.ts < we ∧ e.kind = EventKind.start := by
  intro fuel
  induction fuel with
  | zero => intro i; simp [cronLoop]
  | succ n ih =>
    intro i
    simp only [cronLoop]
    cases env.cronFires expr base i with
    | error _ => simp
    | ok nextLocal =>
      by_cases h : we ≤ env.fromLocal tzn nextLocal
      · simp [h]
      · rcases ih (i + 1) with ⟨hlen, hall⟩
        constructor
        · simp only [h, if_false, List.length_cons]
          omega
        · intro e hmem
          simp only [h, if_false, List.mem_cons] at hmem
          rcases hmem with h1 | h1
          · subst h1
            exact ⟨lt_of_not_ge h, rfl⟩
          · exact hall e h1

theorem rrLookup_map_set (k : String) (v : Int) :
    ∀ rr : List (String × Int),
      rrLookup (rr.map (fun p => if p.1 == k then (k, v) else p)) k =
        if rr.any (fun p => p.1 == k) then some v else none := by
  intro rr
  induction rr with
  | nil => rfl
  | cons p ps ih =>
    by_cases h : (p.1 == k) = true
    · simp only [List.map_cons, h, if_true, List.any_cons, Bool.true_or]
      unfold rrLookup
      rw [List.find?_cons_of_pos _ (by simp)]
      rfl
    · simp only [List.map_cons, h, if_false, List.any_cons, Bool.false_or]
      unfold rrLookup at ih ⊢
      rw [List.find?_cons_of_neg _ (by simpa using h)]
      exact ih

theorem rrLookup_append_absent (k : String) (v : Int) :
    ∀ rr : List (String × Int), rr.any (fun p => p.1 == k) = false →
      rrLookup (rr ++ [(k, v)]) k = some v := by
  intro rr
  induction rr with
  | nil =>
    intro _
    unfold rrLookup
    rw [List.nil_append, List.find?_cons_of_pos _ (by simp)]
    rfl
  | cons p ps ih =>
    intro h
    rw [List.any_cons, Bool.or_eq_false_iff] at h
    simp only [List.cons_append]
    unfold rrLookup
    rw [List.find?_cons_of_neg _ (by simp [h.1])]
    exact ih h.2

theorem rrLookup_rrSet (rr : List (String × Int)) (k : String) (v : Int) :
    rrLookup (rrSet rr k v) k = some v := by
  unfold rrSet
  by_cases h : rr.any (fun p => p.1 == k) = true
  · rw [if_pos h, rrLookup_map_set, if_pos h]
  · rw [if_neg h, rrLookup_append_absent k v rr (Bool.eq_false_iff.mpr h)]

theorem determine_all_active_at_rr (env : Env) (st : AppState)
    (r : List (String × Int)) (now : Int) :
    determine_all_active_at env { st with rr := r } now =
      determine_all_active_at env st now := rfl

theorem apiShift_multi (env : Env) (state : AppState) (now : Int)
    (a b : Schedule) (t : List Schedule) (started : Option Int)
    (h : determine_all_active_at env state now = (a :: b :: t, started)) :
    api_shift env state now =
      (⟨(lookupMember state.members
          (((a :: b :: t).getD
            ((((rrLookup state.rr (groupKeyOf env (a :: b :: t) started)).getD (-1) + 1) %
              ((a :: b :: t).length : Int)).toNat)
            ⟨"", "", "", none, none, none, [], true⟩).member_id)).map Member.id,
        (lookupMember state.members
          (((a :: b :: t).getD
            ((((rrLookup state.rr (groupKeyOf env (a :: b :: t) started)).getD (-1) + 1) %
              ((a :: b :: t).length : Int)).toNat)
            ⟨"", "", "", none, none, none, [], true⟩).member_id)).map Member.name,
        true, true⟩,
       { state with rr := (rrSet state.rr (groupKeyOf env (a :: b :: t) started)
          (((rrLookup state.rr (groupKeyOf env (a :: b :: t) started)).getD (-1) + 1) %
            ((a :: b :: t).length : Int))) }) := by
  unfold api_shift
  rw [h]
  rfl

theorem rangeDayEvents_none_start (env : Env) (tzn : String) (startT : Tod)
    (days : List Int) (ws we : Int) (s : Schedule) (d : Int) :
    ∀ e ∈ rangeDayEvents env tzn startT none days ws we s d,
      e.kind = EventKind.start ∧ e.sched = s := by
  intro e he
  simp only [rangeDayEvents] at he
  split_ifs at he with hd hs
  · simp only [List.append_nil, List.mem_singleton] at he
    subst he
    exact ⟨rfl, rfl⟩
  · simp at he
  · simp at he

theorem generate_events_canonicalize_error (env : Env) (s : Schedule) (ws we : Int)
    (h : (canonicalize_timezone_name env.validZone s.timezone).toOption = none) :
    generate_events_for_schedule env s ws we = .ok [] := by
  have h2 : ∃ msg, canonicalize_timezone_name env.validZone s.timezone = .error msg := by
    cases hc : canonicalize_timezone_name env.validZone s.timezone with
    | ok v => rw [hc] at h; simp [Except.toOption] at h
    | error m => exact ⟨m, rfl⟩
  rcases h2 with ⟨msg, hmsg⟩
  unfold generate_events_for_schedule
  by_cases ha : (!s.active) = true
  · rw [if_pos ha]
  · rw [if_neg ha]
    by_cases hcr : hasCron s = true
    · rw [if_pos hcr, hmsg]
    · rw [if_neg hcr]
      by_cases hr : is_range_schedule s = true
      · rw [if_pos hr, hmsg]
      · rw [if_neg hr]

/-- C2: for every schedule list and target instant, `_determine_all_active_at`
applies exactly the merged events whose instant is at most the target (events
strictly after the target are never applied), and a start event of a cron
schedule replaces the entire active set with just that schedule and sets the
composition start to the event instant, regardless of the previous set. -/
theorem overlap_replay_upto_target (env : Env) (state : AppState) (at_utc : Int) :
    (determine_all_active_at env state at_utc =
      (let evs := (generate_all_events env state (at_utc - 2 * 86400) (at_utc + 1)).filter
          (fun e => decide (e.ts ≤ at_utc))
       let st := evs.foldl applyAllStep ([], none)
       (sortSchedulesByMember state.members (dictValues st.1), st.2)))
    ∧ (∀ (d : SchedDict) (lc : Option Int) (ts : Int) (s : Schedule),
        is_cron_schedule s = true →
        applyAllStep (d, lc) ⟨ts, EventKind.start, s⟩ = ([(s.id, s)], some ts)) := by
  constructor
  · unfold determine_all_active_at
    dsimp only
    rw [replayUntil_eq_foldl applyAllStep at_utc _ _ (generate_all_events_pairwise env state _ _)]
  · intro d lc ts s hs
    simp [applyAllStep, hs]

theorem overlap_replay_upto_target_witness :
    applyAllStep ([("a", schedA), ("b", schedB)], some 5) ⟨7, EventKind.start, schedCron⟩ =
      ([(schedCron.id, schedCron)], some 7) :=
  (overlap_replay_upto_target testEnv stateAB 36000).2
    [("a", schedA), ("b", schedB)] (some 5) 7 schedCron (by decide)

/-- C3: under the additive model, a start event of a Ranged schedule inserts
it and updates the composition start exactly when it was absent (a start of a
present schedule changes nothing); an end event removes it and updates the
composition start exactly when it was present (an end of an absent schedule
changes nothing); and two distinct Ranged schedules can be simultaneously
active. -/
theorem ranged_additive_model (d : SchedDict) (lc : Option Int) (ts ts1 ts2 : Int)
    (s s1 s2 : Schedule) :
    (is_range_schedule s = true →
      ((dictContains d s.id = false →
         applyAllStep (d, lc) ⟨ts, EventKind.start, s⟩ = (d ++ [(s.id, s)], some ts))
       ∧ (dictContains d s.id = true →
         applyAllStep (d, lc) ⟨ts, EventKind.start, s⟩ = (d, lc))
       ∧ (dictContains d s.id = true →
         applyAllStep (d, lc) ⟨ts, EventKind.stop, s⟩ = (dictDel d s.id, some ts))
       ∧ (dictContains d s.id = false →
         applyAllStep (d, lc) ⟨ts, EventKind.stop, s⟩ = (d, lc))))
    ∧ (is_range_schedule s1 = true → is_range_schedule s2 = true → s1.id ≠ s2.id →
        (applyAllStep (applyAllStep ([], none) ⟨ts1, EventKind.start, s1⟩)
          ⟨ts2, EventKind.start, s2⟩).1 = [(s1.id, s1), (s2.id, s2)]) := by
  constructor
  · intro h
    have hcron : is_cron_schedule s = false := by simp [is_cron_schedule, h]
    refine ⟨?_, ?_, ?_, ?_⟩ <;> intro h2 <;> simp [applyAllStep, hcron, h2]
  · intro h1 h2 hne
    have hc1 : is_cron_schedule s1 = false := by simp [is_cron_schedule, h1]
    have hc2 : is_cron_schedule s2 = false := by simp [is_cron_schedule, h2]
    have hb : (s1.id == s2.id) = false := by simp [hne]
    simp [applyAllStep, hc1, hc2, dictContains, hb]

theorem ranged_additive_model_witness :
    applyAllStep ([("a", schedA)], some 1) ⟨9, EventKind.start, schedB⟩ =
      ([("a", schedA)] ++ [(schedB.id, schedB)], some 9) :=
  ((ranged_additive_model [("a", schedA)] (some 1) 9 0 0 schedB schedA schedB).1
    (by decide)).1 (by decide)

/-- C9: `_determine_active_at` (the single-current path used by
`compute_current_shift`) replays events up to the target applying exclusive
replacement to every start event regardless of schedule kind (any start makes
its schedule the sole current one and sets the started instant), while an end
event clears the current schedule exactly when its id matches the active one
and is ignored otherwise. -/
theorem single_owner_replay (env : Env) (state : AppState) (at_utc : Int) :
    (determine_active_at env state at_utc =
      ((generate_all_events env state (at_utc - 2 * 86400) (at_utc + 1)).filter
          (fun e => decide (e.ts ≤ at_utc))).foldl applySingleStep (none, none))
    ∧ (∀ (cur : Option Schedule × Option Int) (ts : Int) (s : Schedule),
        applySingleStep cur ⟨ts, EventKind.start, s⟩ = (some s, some ts))
    ∧ (∀ (a : Schedule) (lc : Option Int) (ts : Int) (s : Schedule), a.id = s.id →
        applySingleStep (some a, lc) ⟨ts, EventKind.stop, s⟩ = (none, none))
    ∧ (∀ (a : Schedule) (lc : Option Int) (ts : Int) (s : Schedule), a.id ≠ s.id →
        applySingleStep (some a, lc) ⟨ts, EventKind.stop, s⟩ = (some a, lc))
    ∧ (∀ (lc : Option Int) (ts : Int) (s : Schedule),
        applySingleStep (none, lc) ⟨ts, EventKind.stop, s⟩ = (none, lc))
    ∧ ((state.schedules.filter (fun s => s.active)).isEmpty = false →
        compute_current_shift env state at_utc =
          ((determine_active_at env state at_utc).1, (determine_active_at env state at_utc).2,
           (find_next_start_after env state at_utc).1,
           (find_next_start_after env state at_utc).2)) := by
  refine ⟨?_, ?_, ?_, ?_, ?_, ?_⟩
  · unfold determine_active_at
    rw [replayUntil_eq_foldl applySingleStep at_utc _ _ (generate_all_events_pairwise env state _ _)]
  · intro cur ts s
    simp [applySingleStep]
  · intro a lc ts s h
    simp [applySingleStep, h]
  · intro a lc ts s h
    simp [applySingleStep, h]
  · intro lc ts s
    simp [applySingleStep]
  · intro h
    simp [compute_current_shift, h]

theorem single_owner_replay_witness :
    applySingleStep (some schedA, some 1) ⟨5, EventKind.start, schedB⟩ = (some schedB, some 5)
    ∧ applySingleStep (some schedA, some 2) ⟨6, EventKind.stop, schedA⟩ = (none, none) :=
  ⟨(single_owner_replay testEnv stateAB 0).2.1 (some schedA, some 1) 5 schedB,
   (single_owner_replay testEnv stateAB 0).2.2.1 schedA (some 2) 6 schedA rfl⟩

/-- C8: for every cron schedule whose expression `croniter` accepts, the
recurrence projection returns normally (no error) with at most 1000 start
events, every one of them strictly before the window end; hitting the
iteration bound truncates rather than raising. -/
theorem cron_bounded_truncation (env : Env) (s : Schedule) (ws we : Int)
    (hc : hasCron s = true) (hv : env.cronValid (s.cron.getD "") = true) :
    ∃ l, generate_events_for_schedule env s ws we = .ok l ∧
      l.length ≤ 1000 ∧ ∀ e ∈ l, e.ts < we ∧ e.kind = EventKind.start := by
  unfold generate_events_for_schedule
  by_cases ha : (!s.active) = true
  · rw [if_pos ha]
    exact ⟨[], rfl, by simp, by simp⟩
  · rw [if_neg ha, if_pos hc]
    cases hz : canonicalize_timezone_name env.validZone s.timezone with
    | error m => exact ⟨[], rfl, by simp, by simp⟩
    | ok tzn =>
      refine ⟨cronLoop env (s.cron.getD "") tzn (env.toLocal tzn (ws - 2 * 86400)) we s 1000 0,
        ?_, (cronLoop_bounded env _ tzn _ we s 1000 0).1,
        (cronLoop_bounded env _ tzn _ we s 1000 0).2⟩
      simp [hv]

theorem cron_bounded_truncation_witness :
    ∃ l, generate_events_for_schedule testEnv schedCron 0 200000 = .ok l ∧
      l.length ≤ 1000 ∧ ∀ e ∈ l, e.ts < 200000 ∧ e.kind = EventKind.start :=
  cron_bounded_truncation testEnv schedCron 0 200000 (by decide) (by decide)

/-- C6 (amended): `canonicalize_timezone_name` fails for an empty name and for
a name that is neither a valid zone identifier nor (case-insensitively) an
alias-table entry; a name that is *not itself a valid zone identifier* and
matches an alias-table abbreviation resolves to that abbreviation's one fixed
canonical zone (re-validated before returning); summer and winter
abbreviations of a region therefore resolve to the same canonical zone only
when neither is itself a valid zone identifier (AEST/AEDT both map to
Australia/Sydney, while EST — itself a valid zone identifier in the standard
database — is returned as-is and so differs from EDT's target). -/
theorem canonicalize_alias_resolution (vz : String → Bool) (name z : String) :
    (pyStrip name = "" → (canonicalize_timezone_name vz name).toOption = none)
    ∧ (vz (pyStrip name) = false → assocLookup TZ_ALIASES (pyUpper (pyStrip name)) = none →
        (canonicalize_timezone_name vz name).toOption = none)
    ∧ (vz (pyStrip name) = false → assocLookup TZ_ALIASES (pyUpper (pyStrip name)) = some z →
        vz z = true → canonicalize_timezone_name vz name = .ok z)
    ∧ (canonicalize_timezone_name ianaSample "AEST" = .ok "Australia/Sydney"
       ∧ canonicalize_timezone_name ianaSample "AEDT" = .ok "Australia/Sydney"
       ∧ canonicalize_timezone_name ianaSample "EDT" = .ok "America/New_York"
       ∧ canonicalize_timezone_name ianaSample "EST" = .ok "EST") := by
  refine ⟨?_, ?_, ?_, rfl, rfl, rfl, rfl⟩
  · intro h
    simp only [canonicalize_timezone_name]
    rw [if_pos h]
    rfl
  · intro h1 h2
    simp only [canonicalize_timezone_name]
    by_cases h0 : pyStrip name = ""
    · rw [if_pos h0]; rfl
    · rw [if_neg h0, if_neg (by simp [h1]), h2]
      rfl
  · intro h1 h2 h3
    have h0 : pyStrip name ≠ "" := by
      intro h0
      rw [h0] at h2
      have hnone : assocLookup TZ_ALIASES (pyUpper "") = none := rfl
      rw [hnone] at h2
      cases h2
    simp only [canonicalize_timezone_name]
    rw [if_neg h0, if_neg (by simp [h1]), h2]
    simp [h3]

/-- C6 counterexample: "EST" matches an alias-table entry whose canonical
target is America/New_York, yet under the standard zone-database model it
canonicalizes to the zone "EST" itself (the direct-zone check precedes the
alias lookup), so an alias-table match does not imply alias resolution, and
EST and EDT do not resolve to the same canonical zone. -/
theorem canonicalize_alias_counterexample :
    assocLookup TZ_ALIASES "EST" = some "America/New_York"
    ∧ canonicalize_timezone_name ianaSample "EST" = .ok "EST"
    ∧ canonicalize_timezone_name ianaSample "EDT" = .ok "America/New_York"
    ∧ ("EST" : String) ≠ "America/New_York" :=
  ⟨rfl, rfl, rfl, by decide⟩

theorem canonicalize_alias_resolution_witness :
    canonicalize_timezone_name ianaSample "aedt" = .ok "Australia/Sydney" :=
  (canonicalize_alias_resolution ianaSample "aedt" "Australia/Sydney").2.2.1
    (by decide) (by decide) (by decide)

/-- C7: `_generate_all_events` never raises for any schedule list: the merge
is a total function; a schedule whose projector raises is skipped while every
other schedule's events are still produced; the merged output is sorted by
instant ascending with ties preserving the input order of the concatenated
per-schedule events; and an invalid stored timezone makes the projector
return no events rather than raise. -/
theorem merge_skips_broken_schedule (env : Env) (state : AppState) (ws we t : Int)
    (l1 l2 : List Schedule) (b : Schedule) (msg : String) :
    (generate_all_events env state ws we).Pairwise evLe
    ∧ (generate_all_events env state ws we).filter (fun e => e.ts == t) =
        (state.schedules.flatMap (fun s => events_or_empty env s ws we)).filter
          (fun e => e.ts == t)
    ∧ (state.schedules = l1 ++ b :: l2 →
        generate_events_for_schedule env b ws we = .error msg →
        generate_all_events env state ws we =
          generate_all_events env { state with schedules := l1 ++ l2 } ws we)
    ∧ ((canonicalize_timezone_name env.validZone b.timezone).toOption = none →
        generate_events_for_schedule env b ws we = .ok []) := by
  refine ⟨generate_all_events_pairwise env state ws we, sortByLt_filter_ts t _, ?_,
    generate_events_canonicalize_error env b ws we⟩
  intro hsched herr
  have hb : events_or_empty env b ws we = [] := by
    unfold events_or_empty; rw [herr]
  unfold generate_all_events
  rw [hsched]
  have hsch2 : ({ state with schedules := l1 ++ l2 } : AppState).schedules = l1 ++ l2 := rfl
  rw [hsch2]
  congr 1
  rw [List.flatMap_append, List.flatMap_cons, hb, List.flatMap_append]
  simp

theorem merge_skips_broken_schedule_witness :
    generate_all_events testEnv stateWithBad 0 86400 =
      generate_all_events testEnv { stateWithBad with schedules := [schedA] ++ [] } 0 86400 :=
  (merge_skips_broken_schedule testEnv stateWithBad 0 86400 0 [schedA] [] schedBadCron
    "invalid cron expression").2.2.1 rfl rfl

/-- C1 (amended): for every window with `window_start < window_end` and a
state with at least one schedule whose active flag is set,
`compute_timeline_segments` returns a segment list that exactly tiles the
half-open window `[window_start, window_end)`: the first segment starts at
`window_start`, each segment ends where the next begins, the last segment
ends at `window_end`, and every segment has strictly positive duration.
(With no active schedule the function returns the empty list instead.) -/
theorem timeline_segments_tile_active_window (env : Env) (state : AppState) (ws we : Int)
    (hlt : ws < we) (hne : (state.schedules.filter (fun s => s.active)).isEmpty = false) :
    tilesb ws we (compute_timeline_segments env state ws we) = true := by
  unfold compute_timeline_segments
  rw [if_neg (by simp [hne])]
  dsimp only
  rw [tilesb_map_schedules]
  exact segLoop_tiles ws we _ _ ws hlt (generate_all_events_pairwise env state _ _)
    (fun e _ h => h)

/-- C1 counterexample: with no schedules stored and the nonempty window
`[0, 100)`, `compute_timeline_segments` returns the empty list, which tiles
nothing, so the claim as stated (for every state) is false. -/
theorem timeline_segments_empty_counterexample :
    (0 : Int) < 100
    ∧ compute_timeline_segments testEnv emptyState 0 100 = []
    ∧ tilesb 0 100 (compute_timeline_segments testEnv emptyState 0 100) = false :=
  ⟨by decide, rfl, rfl⟩

theorem timeline_segments_tile_witness :
    tilesb 0 86400 (compute_timeline_segments testEnv stateAB 0 86400) = true :=
  timeline_segments_tile_active_window testEnv stateAB 0 86400 (by decide) (by decide)

theorem rangeDayEvents_proj_sched (env : Env) (tzn : String) (startT : Tod)
    (endT : Option Tod) (days : List Int) (ws we : Int) (s1 s2 : Schedule) (d : Int) :
    (rangeDayEvents env tzn startT endT days ws we s1 d).map (fun e => (e.ts, e.kind)) =
      (rangeDayEvents env tzn startT endT days ws we s2 d).map (fun e => (e.ts, e.kind)) := by
  unfold rangeDayEvents
  by_cases hd : days.contains (weekdayOf d) = true
  · rw [if_pos hd, if_pos hd]
    dsimp only
    rw [List.map_append, List.map_append]
    congr 1
    · by_cases hs : env.fromLocal tzn (d * 86400 + startT.hour * 3600 + startT.minute * 60) < we
      · rw [if_pos hs, if_pos hs]
        rfl
      · rw [if_neg hs, if_neg hs]
    · cases endT with
      | none => rfl
      | some et =>
        dsimp only
        by_cases hcnd : ws < rangeEndUtc env tzn startT et d ∧
            rangeEndUtc env tzn startT et d < we + 86400
        · rw [if_pos hcnd, if_pos hcnd]
          rfl
        · rw [if_neg hcnd, if_neg hcnd]
  · rw [if_neg hd, if_neg hd]

/-- C10: a stored Ranged schedule whose `end_time` is present but fails to
parse as HH:MM is neither raised on nor skipped: projection proceeds exactly
as if no end time were given (the same instants and kinds are produced), only
start events are emitted (each carrying the schedule itself), and under the
additive activation model its own events never remove it from the active
set. -/
theorem bad_end_time_momentary (env : Env) (s : Schedule) (ws we : Int)
    (estr msg : String)
    (hc : hasCron s = false) (hr : is_range_schedule s = true)
    (he : s.end_time = some estr) (hp : parse_time_of_day estr = .error msg) :
    Except.map (List.map (fun e => (e.ts, e.kind)))
        (generate_events_for_schedule env s ws we) =
      Except.map (List.map (fun e => (e.ts, e.kind)))
        (generate_events_for_schedule env { s with end_time := none } ws we)
    ∧ (∀ l, generate_events_for_schedule env s ws we = .ok l →
        ∀ e ∈ l, e.kind = EventKind.start ∧ e.sched = s)
    ∧ (∀ l, generate_events_for_schedule env s ws we = .ok l →
        ∀ e ∈ l, ∀ (d : SchedDict) (lc : Option Int),
          dictContains d s.id = true →
          dictContains (applyAllStep (d, lc) e).1 s.id = true) := by
  have hend : endTodOf s = none := by
    unfold endTodOf
    rw [he]
    dsimp only
    by_cases h0 : estr = ""
    · rw [if_pos h0]
    · rw [if_neg h0, hp]
      rfl
  have hall : ∀ l, generate_events_for_schedule env s ws we = .ok l →
      ∀ e ∈ l, e.kind = EventKind.start ∧ e.sched = s := by
    intro l hl e hee
    unfold generate_events_for_schedule at hl
    by_cases ha : (!s.active) = true
    · rw [if_pos ha] at hl
      simp only [Except.ok.injEq] at hl
      subst hl
      simp at hee
    · rw [if_neg ha, if_neg (by simp [hc] : ¬ hasCron s = true), if_pos hr] at hl
      cases hz : canonicalize_timezone_name env.validZone s.timezone with
      | error m =>
        rw [hz] at hl
        simp only [Except.ok.injEq] at hl
        subst hl
        simp at hee
      | ok tzn =>
        rw [hz] at hl
        cases hps : parse_time_of_day (s.start_time.getD "") with
        | error m =>
          rw [hps] at hl
          simp only [Except.ok.injEq] at hl
          subst hl
          simp at hee
        | ok startT =>
          rw [hps] at hl
          simp only [hend, Except.ok.injEq] at hl
          subst hl
          rcases List.mem_flatMap.mp hee with ⟨d, _, hde⟩
          exact rangeDayEvents_none_start env tzn startT s.days ws we s d e hde
  refine ⟨?_, hall, ?_⟩
  · obtain ⟨sid, smid, stz, scron, sst, setm, sdays, sact⟩ := s
    replace he : setm = some estr := he
    subst he
    have hcA : hasCron ⟨sid, smid, stz, scron, sst, some estr, sdays, sact⟩ = false := hc
    have hcB : hasCron ⟨sid, smid, stz, scron, sst, none, sdays, sact⟩ = false := hc
    have hrA : is_range_schedule ⟨sid, smid, stz, scron, sst, some estr, sdays, sact⟩ = true := hr
    have hrB : is_range_schedule ⟨sid, smid, stz, scron, sst, none, sdays, sact⟩ = true := hr
    have hendA : endTodOf ⟨sid, smid, stz, scron, sst, some estr, sdays, sact⟩ = none := hend
    have hendB : endTodOf ⟨sid, smid, stz, scron, sst, none, sdays, sact⟩ = none := rfl
    simp only [generate_events_for_schedule]
    by_cases hact : (!sact) = true
    · rw [if_pos hact, if_pos hact]
    · rw [if_neg hact, if_neg hact,
        if_neg (by simp [hcA] : ¬ hasCron ⟨sid, smid, stz, scron, sst, some estr, sdays, sact⟩ = true),
        if_neg (by simp [hcB] : ¬ hasCron ⟨sid, smid, stz, scron, sst, none, sdays, sact⟩ = true),
        if_pos hrA, if_pos hrB]
      cases hz : canonicalize_timezone_name env.validZone stz with
      | error m => rfl
      | ok tzn =>
        dsimp only
        cases hps : parse_time_of_day (sst.getD "") with
        | error m => rfl
        | ok startT =>
          dsimp only
          rw [hendA, hendB]
          simp only [Except.map]
          rw [List.map_flatMap, List.map_flatMap]
          exact congrArg Except.ok (congrArg (List.flatMap _)
            (funext fun d => rangeDayEvents_proj_sched env tzn startT none sdays ws we _ _ d))
  · intro l hl e hee d lc hd
    rcases hall l hl e hee with ⟨hk, hsch⟩
    have hcron : is_cron_schedule e.sched = false := by
      rw [hsch]
      simp [is_cron_schedule, hr]
    obtain ⟨ets, ekind, esched⟩ := e
    simp only at hk hsch hcron
    subst hk
    simp only [applyAllStep]
    rw [if_neg (by simp [hcron]), hsch]
    rw [if_pos hd]
    exact hd

theorem bad_end_time_momentary_witness :
    Except.map (List.map (fun e => (e.ts, e.kind)))
        (generate_events_for_schedule testEnv schedBadEnd 0 86400) =
      Except.map (List.map (fun e => (e.ts, e.kind)))
        (generate_events_for_schedule testEnv { schedBadEnd with end_time := none } 0 86400) :=
  (bad_end_time_momentary testEnv schedBadEnd 0 86400 "oops" "Time must be HH:MM"
    (by decide) (by decide) rfl rfl).1

/-- C5: for a Ranged schedule with an end time of day, the projected end
instant lies on the same local calendar day as the start exactly when
`end_tod > start_tod`, and rolls to the next calendar day when
`end_tod <= start_tod` (non-strict); on a scheduled day the end event is
emitted if and only if its UTC instant is strictly after `window_start` and
strictly before `window_end` plus one day; moreover the whole range
projection is the concatenation of these per-day events over the iterated
local days. -/
theorem ranged_end_rollover (env : Env) (tzn : String) (startT et : Tod)
    (days : List Int) (ws we : Int) (s : Schedule) (d : Int) :
    (s.active = true → hasCron s = false → is_range_schedule s = true →
      canonicalize_timezone_name env.validZone s.timezone = .ok tzn →
      parse_time_of_day (s.start_time.getD "") = .ok startT →
      generate_events_for_schedule env s ws we =
        .ok ((rangeDaysList env tzn (we + 86400)
              ((env.toLocal tzn (ws - 2 * 86400)).fdiv 86400)
              ((env.toLocal tzn (we + 86400)).fdiv 86400 + 2 -
                (env.toLocal tzn (ws - 2 * 86400)).fdiv 86400).toNat).flatMap
            (rangeDayEvents env tzn startT (endTodOf s) s.days ws we s)))
    ∧ (todLe et startT = false → rangeEndDay startT et d = d)
    ∧ (todLe et startT = true → rangeEndDay startT et d = d + 1)
    ∧ (days.contains (weekdayOf d) = true →
        ((Event.mk (rangeEndUtc env tzn startT et d) EventKind.stop s
            ∈ rangeDayEvents env tzn startT (some et) days ws we s d) ↔
          (ws < rangeEndUtc env tzn startT et d ∧
            rangeEndUtc env tzn startT et d < we + 86400)))
    ∧ (days.contains (weekdayOf d) = true →
        ∀ e ∈ rangeDayEvents env tzn startT (some et) days ws we s d,
          e.kind = EventKind.stop → e.ts = rangeEndUtc env tzn startT et d) := by
  refine ⟨?_, ?_, ?_, ?_, ?_⟩
  · intro ha hcr hrr hz hps
    unfold generate_events_for_schedule
    rw [if_neg (by simp [ha] : ¬ (!s.active) = true),
      if_neg (by simp [hcr] : ¬ hasCron s = true), if_pos hrr, hz, hps]
  · intro h
    simp [rangeEndDay, h]
  · intro h
    simp [rangeEndDay, h]
  · intro hd
    simp only [rangeDayEvents, hd, if_true]
    constructor
    · intro hmem
      rcases List.mem_append.mp hmem with h1 | h1
      · exfalso
        by_cases hs : env.fromLocal tzn (d * 86400 + startT.hour * 3600 + startT.minute * 60) < we
        · rw [if_pos hs] at h1
          simp at h1
        · rw [if_neg hs] at h1
          simp at h1
      · by_cases hcnd : ws < rangeEndUtc env tzn startT et d ∧
            rangeEndUtc env tzn startT et d < we + 86400
        · exact hcnd
        · rw [if_neg hcnd] at h1
          simp at h1
    · intro hcnd
      refine List.mem_append.mpr (Or.inr ?_)
      rw [if_pos hcnd]
      simp
  · intro hd e hmem hk
    simp only [rangeDayEvents, hd, if_true] at hmem
    rcases List.mem_append.mp hmem with h1 | h1
    · exfalso
      by_cases hs : env.fromLocal tzn (d * 86400 + startT.hour * 3600 + startT.minute * 60) < we
      · rw [if_pos hs] at h1
        simp only [List.mem_singleton] at h1
        rw [h1] at hk
        simp at hk
      · rw [if_neg hs] at h1
        simp at h1
    · by_cases hcnd : ws < rangeEndUtc env tzn startT et d ∧
          rangeEndUtc env tzn startT et d < we + 86400
      · rw [if_pos hcnd] at h1
        simp only [List.mem_singleton] at h1
        rw [h1]
      · rw [if_neg hcnd] at h1
        simp at h1

theorem ranged_end_rollover_witness :
    (Event.mk (rangeEndUtc testEnv "UTC" ⟨22, 0⟩ ⟨6, 0⟩ 0) EventKind.stop schedA
      ∈ rangeDayEvents testEnv "UTC" ⟨22, 0⟩ (some ⟨6, 0⟩) [0, 1, 2, 3, 4, 5, 6] 0 86400 schedA 0)
    ∧ rangeEndDay ⟨22, 0⟩ ⟨6, 0⟩ 0 = 0 + 1 :=
  ⟨((ranged_end_rollover testEnv "UTC" ⟨22, 0⟩ ⟨6, 0⟩ [0, 1, 2, 3, 4, 5, 6] 0 86400
      schedA 0).2.2.2.1 (by decide)).mpr ⟨by decide, by decide⟩,
   (ranged_end_rollover testEnv "UTC" ⟨22, 0⟩ ⟨6, 0⟩ [0, 1, 2, 3, 4, 5, 6] 0 86400
      schedA 0).2.2.1 (by decide)⟩

/-- C4: the on-call pick of `api_shift`: an empty active set reports nobody on
call with `round_robin` false and no state change; exactly one active
schedule returns that schedule's member with `round_robin` false and no
rotation-state mutation; with at least two active schedules it selects the
schedule at index `(previous + 1) mod n` of the stable sort order, where
`previous` is the rotation index stored under the group key built from the
composition start and the active schedule ids (default `-1` when unseen), and
persists the new index under that key; hence two consecutive picks with an
unchanged two-schedule active set return the two members alternately. -/
theorem round_robin_selection (env : Env) (state : AppState) (now : Int) :
    ((determine_all_active_at env state now).1 = [] →
      api_shift env state now = (⟨none, none, false, false⟩, state))
    ∧ (∀ only started, determine_all_active_at env state now = ([only], started) →
        api_shift env state now =
          (⟨(lookupMember state.members only.member_id).map Member.id,
            (lookupMember state.members only.member_id).map Member.name,
            true, false⟩, state))
    ∧ (∀ a b t started, determine_all_active_at env state now = (a :: b :: t, started) →
        api_shift env state now =
          (let actives := a :: b :: t
           let groupKey := groupKeyOf env actives started
           let nextIndex := (((rrLookup state.rr groupKey).getD (-1)) + 1) %
             (actives.length : Int)
           let selected := actives.getD nextIndex.toNat ⟨"", "", "", none, none, none, [], true⟩
           let member := lookupMember state.members selected.member_id
           (⟨member.map Member.id, member.map Member.name, true, true⟩,
            { state with rr := rrSet state.rr groupKey nextIndex })))
    ∧ (∀ a b started ma mb,
        determine_all_active_at env state now = ([a, b], started) →
        lookupMember state.members a.member_id = some ma →
        lookupMember state.members b.member_id = some mb →
        ma.id ≠ mb.id →
        (api_shift env state now).1.id ≠
          (api_shift env (api_shift env state now).2 now).1.id
        ∧ ((api_shift env state now).1.id = some ma.id
            ∧ (api_shift env (api_shift env state now).2 now).1.id = some mb.id
           ∨ (api_shift env state now).1.id = some mb.id
            ∧ (api_shift env (api_shift env state now).2 now).1.id = some ma.id)) := by
  refine ⟨?_, ?_, ?_, ?_⟩
  · intro h
    unfold api_shift
    cases hda : determine_all_active_at env state now with
    | mk l st2 =>
      rw [hda] at h
      simp only at h
      subst h
      rfl
  · intro only started h
    unfold api_shift
    rw [h]
    rfl
  · intro a b t started h
    exact apiShift_multi env state now a b t started h
  · intro a b started ma mb h hma hmb hne
    have hlen : ((List.length (a :: b :: ([] : List Schedule)) : Nat) : Int) = 2 := by
      simp
    have e1 := apiShift_multi env state now a b [] started h
    rw [hlen] at e1
    have h01 : ((rrLookup state.rr (groupKeyOf env (a :: b :: []) started)).getD (-1) + 1) % 2 = 0
        ∨ ((rrLookup state.rr (groupKeyOf env (a :: b :: []) started)).getD (-1) + 1) % 2 = 1 := by
      omega
    have hgetA : (a :: b :: []).getD ((0 : Int)).toNat
        (⟨"", "", "", none, none, none, [], true⟩ : Schedule) = a := rfl
    have hgetB : (a :: b :: []).getD ((1 : Int)).toNat
        (⟨"", "", "", none, none, none, [], true⟩ : Schedule) = b := rfl
    rcases h01 with h0 | h0
    · rw [h0, hgetA, hma] at e1
      have hr1 : (api_shift env state now).1.id = some ma.id := by
        rw [e1]
        rfl
      have hst1 : (api_shift env state now).2 =
          { state with rr := (rrSet state.rr (groupKeyOf env (a :: b :: []) started) 0) } := by
        rw [e1]
      have hd2 : determine_all_active_at env (api_shift env state now).2 now =
          ([a, b], started) := by
        rw [hst1, determine_all_active_at_rr]
        exact h
      have e2 := apiShift_multi env (api_shift env state now).2 now a b [] started hd2
      rw [hlen, hst1] at e2
      have hrr2 : ({ state with
          rr := (rrSet state.rr (groupKeyOf env (a :: b :: []) started) 0) } : AppState).rr =
          rrSet state.rr (groupKeyOf env (a :: b :: []) started) 0 := rfl
      have hmm2 : ({ state with
          rr := (rrSet state.rr (groupKeyOf env (a :: b :: []) started) 0) } : AppState).members =
          state.members := rfl
      rw [hrr2, hmm2, rrLookup_rrSet] at e2
      have hidx2 : (((some (0 : Int)).getD (-1) + 1) % 2 : Int) = 1 := by decide
      rw [hidx2, hgetB, hmb] at e2
      have hr2 : (api_shift env (api_shift env state now).2 now).1.id = some mb.id := by
        rw [hst1, e2]
        rfl
      refine ⟨?_, Or.inl ⟨hr1, hr2⟩⟩
      rw [hr1, hr2]
      intro hq
      exact hne (Option.some.inj hq)
    · rw [h0, hgetB, hmb] at e1
      have hr1 : (api_shift env state now).1.id = some mb.id := by
        rw [e1]
        rfl
      have hst1 : (api_shift env state now).2 =
          { state with rr := (rrSet state.rr (groupKeyOf env (a :: b :: []) started) 1) } := by
        rw [e1]
      have hd2 : determine_all_active_at env (api_shift env state now).2 now =
          ([a, b], started) := by
        rw [hst1, determine_all_active_at_rr]
        exact h
      have e2 := apiShift_multi env (api_shift env state now).2 now a b [] started hd2
      rw [hlen, hst1] at e2
      have hrr2 : ({ state with
          rr := (rrSet state.rr (groupKeyOf env (a :: b :: []) started) 1) } : AppState).rr =
          rrSet state.rr (groupKeyOf env (a :: b :: []) started) 1 := rfl
      have hmm2 : ({ state with
          rr := (rrSet state.rr (groupKeyOf env (a :: b :: []) started) 1) } : AppState).members =
          state.members := rfl
      rw [hrr2, hmm2, rrLookup_rrSet] at e2
      have hidx2 : (((some (1 : Int)).getD (-1) + 1) % 2 : Int) = 0 := by decide
      rw [hidx2, hgetA, hma] at e2
      have hr2 : (api_shift env (api_shift env state now).2 now).1.id = some ma.id := by
        rw [hst1, e2]
        rfl
      refine ⟨?_, Or.inr ⟨hr1, hr2⟩⟩
      rw [hr1, hr2]
      intro hq
      exact hne (Option.some.inj hq.symm)

theorem round_robin_selection_witness :
    (api_shift testEnv stateAB 36000).1.id ≠
      (api_shift testEnv (api_shift testEnv stateAB 36000).2 36000).1.id
    ∧ ((api_shift testEnv stateAB 36000).1.id = some mAlice.id
        ∧ (api_shift testEnv (api_shift testEnv stateAB 36000).2 36000).1.id = some mBob.id
       ∨ (api_shift testEnv stateAB 36000).1.id = some mBob.id
        ∧ (api_shift testEnv (api_shift testEnv stateAB 36000).2 36000).1.id = some mAlice.id) :=
  (round_robin_selection testEnv stateAB 36000).2.2.2 schedA schedB (some 32400) mAlice mBob
    (by decide) (by decide) (by decide) (by decide)
